import Mathlib

/-!
Shallow embedding of the GRACE single-file segmentation pipeline
(`grace.py`) together with models of the external collaborators the
source delegates to (MONAI sliding-window inference, nibabel geometry,
torch argmax / state-dict loading).  Components that live in external
libraries rather than in the repository source are modelled from the
specification; each such definition says so in its doc comment.
-/

namespace Grace

/-! ### Patch Tiler -/

/-- Modelled from the spec: the MONAI patch tiler's per-axis stride,
`stride = round(W * (1 - o))` clamped to at least 1, for window size `W`
and overlap fraction `o`. -/
def strideOf (W : ℕ) (o : ℚ) : ℕ :=
  max 1 (round ((W : ℚ) * (1 - o))).toNat

/-- Modelled from the spec: the ordered list of patch origins along one
axis of length `S` for window `W` and stride `stride`: origins
`0, stride, 2*stride, …`, with the final origin pulled back to `S - W`
so the last patch ends exactly at the boundary; a single patch at `0`
when `S ≤ W`. -/
def axisOrigins (S W stride : ℕ) : List ℕ :=
  if S ≤ W then [0]
  else (List.range ((S - W + stride - 1) / stride + 1)).map
    (fun i => min (i * stride) (S - W))

/-- Per-axis patch length: the window size, except that an axis shorter
than the window yields one patch spanning the whole axis. -/
def axisLen (S W : ℕ) : ℕ := min W S

/-- Modelled from the spec: the multi-dimensional tiling is the product
of the per-axis origin lists (every combination of per-axis origins, as
`List.sections` of the per-axis lists). -/
def tileOrigins (S W : List ℕ) (o : ℚ) : List (List ℕ) :=
  (List.zipWith (fun s w => axisOrigins s w (strideOf w o)) S W).sections

/-- Per-axis patch lengths for a full shape. -/
def patchLens (S W : List ℕ) : List ℕ :=
  List.zipWith (fun s w => axisLen s w) S W

lemma one_le_strideOf (W : ℕ) (o : ℚ) : 1 ≤ strideOf W o :=
  le_max_left _ _

lemma strideOf_le (W : ℕ) (hW : 1 ≤ W) (o : ℚ) (ho : 0 ≤ o) :
    strideOf W o ≤ W := by
  unfold strideOf
  have hle : (W : ℚ) * (1 - o) ≤ (W : ℚ) := by
    have h1 : (1 : ℚ) - o ≤ 1 := by linarith
    calc (W : ℚ) * (1 - o) ≤ (W : ℚ) * 1 :=
          mul_le_mul_of_nonneg_left h1 (by positivity)
      _ = (W : ℚ) := mul_one _
  have hround : round ((W : ℚ) * (1 - o)) ≤ (W : ℤ) := by
    rw [round_eq]
    have := Int.floor_le_floor (α := ℚ)
      (show (W : ℚ) * (1 - o) + 1 / 2 ≤ (W : ℚ) + 1 / 2 by linarith)
    calc ⌊(W : ℚ) * (1 - o) + 1 / 2⌋ ≤ ⌊(W : ℚ) + 1 / 2⌋ := this
      _ = (W : ℤ) := by
          rw [show ((W : ℚ) + 1 / 2) = ((W : ℤ) : ℚ) + 1 / 2 by push_cast; ring]
          rw [Int.floor_int_add]
          norm_num
  have : (round ((W : ℚ) * (1 - o))).toNat ≤ W := by
    omega
  omega

lemma mem_axisOrigins_bound {S W stride p : ℕ}
    (hp : p ∈ axisOrigins S W stride) : p + axisLen S W ≤ S := by
  unfold axisOrigins at hp
  by_cases h : S ≤ W
  · rw [if_pos h] at hp
    simp only [List.mem_singleton] at hp
    subst hp
    simp [axisLen, Nat.min_eq_right h]
  · rw [if_neg h] at hp
    simp only [List.mem_map, List.mem_range] at hp
    obtain ⟨i, _, rfl⟩ := hp
    have hWS : W ≤ S := le_of_lt (Nat.lt_of_not_le h)
    have : min (i * stride) (S - W) ≤ S - W := min_le_right _ _
    simp only [axisLen, Nat.min_eq_left hWS]
    omega

lemma axisOrigins_cover {S W stride : ℕ} (hs : 1 ≤ stride) (hsW : stride ≤ W)
    {v : ℕ} (hv : v < S) :
    ∃ p ∈ axisOrigins S W stride, p ≤ v ∧ v < p + axisLen S W := by
  unfold axisOrigins
  by_cases h : S ≤ W
  · refine ⟨0, by simp [if_pos h], Nat.zero_le _, ?_⟩
    have : axisLen S W = S := by simp [axisLen, Nat.min_eq_right h]
    omega
  · rw [if_neg h]
    have hWS : W < S := lt_of_not_le h
    have hlen : axisLen S W = W := by
      simp [axisLen, Nat.min_eq_left (le_of_lt hWS)]
    set D := S - W with hD
    have hD1 : 1 ≤ D := by omega
    by_cases hvD : v < D
    · -- interior voxel: patch number v / stride covers it
      refine ⟨min (v / stride * stride) D, ?_, ?_, ?_⟩
      · simp only [List.mem_map, List.mem_range]
        refine ⟨v / stride, ?_, rfl⟩
        have h1 : v / stride ≤ (D - 1) / stride :=
          Nat.div_le_div_right (by omega)
        have h2 : (D - 1) / stride ≤ (D + stride - 1) / stride :=
          Nat.div_le_div_right (by omega)
        omega
      · have := Nat.div_mul_le_self v stride
        omega
      · have hmod := Nat.div_add_mod v stride
        rw [Nat.mul_comm] at hmod
        have hlt : v % stride < stride := Nat.mod_lt _ (by omega)
        have hmul : v / stride * stride ≤ v := Nat.div_mul_le_self v stride
        have : v < v / stride * stride + stride := by
          omega
        have hmin : min (v / stride * stride) D = v / stride * stride := by
          have : v / stride * stride ≤ v := hmul
          exact Nat.min_eq_left (by omega)
        rw [hmin, hlen]
        omega
    · -- boundary voxel: the pulled-back final patch covers it
      refine ⟨min ((D + stride - 1) / stride * stride) D, ?_, ?_, ?_⟩
      · simp only [List.mem_map, List.mem_range]
        exact ⟨(D + stride - 1) / stride, by omega, rfl⟩
      · have hge : D ≤ (D + stride - 1) / stride * stride := by
          have hmod := Nat.div_add_mod (D + stride - 1) stride
          rw [Nat.mul_comm] at hmod
          have : (D + stride - 1) % stride < stride := Nat.mod_lt _ (by omega)
          omega
        have : min ((D + stride - 1) / stride * stride) D = D :=
          Nat.min_eq_right hge
        omega
      · have hge : D ≤ (D + stride - 1) / stride * stride := by
          have hmod := Nat.div_add_mod (D + stride - 1) stride
          rw [Nat.mul_comm] at hmod
          have : (D + stride - 1) % stride < stride := Nat.mod_lt _ (by omega)
          omega
        have hmin : min ((D + stride - 1) / stride * stride) D = D :=
          Nat.min_eq_right hge
        rw [hmin, hlen]
        omega

lemma getD_zipWith {α β γ : Type} (f : α → β → γ) (l₁ : List α) (l₂ : List β)
    (i : ℕ) (d₁ : α) (d₂ : β) (d₃ : γ) (h₁ : i < l₁.length) (h₂ : i < l₂.length) :
    (List.zipWith f l₁ l₂).getD i d₃ = f (l₁.getD i d₁) (l₂.getD i d₂) := by
  have hlen : i < (List.zipWith f l₁ l₂).length := by
    rw [List.length_zipWith]; omega
  rw [List.getD_eq_getElem _ _ hlen, List.getD_eq_getElem _ _ h₁,
    List.getD_eq_getElem _ _ h₂]
  exact List.getElem_zipWith

lemma sections_exists (L : List (List ℕ)) (P : ℕ → ℕ → Prop)
    (h : ∀ i, i < L.length → ∃ x ∈ L.getD i [], P i x) :
    ∃ p ∈ L.sections, p.length = L.length ∧
      ∀ i, i < L.length → P i (p.getD i 0) := by
  induction L generalizing P with
  | nil =>
    refine ⟨[], by simp [List.sections], rfl, ?_⟩
    intro i hi
    simp at hi
  | cons l Ls ih =>
    obtain ⟨x, hx, hPx⟩ := h 0 (by simp)
    obtain ⟨q, hq, hqlen, hqP⟩ :=
      ih (fun i y => P (i + 1) y)
        (fun i hi => h (i + 1) (by simpa using Nat.succ_lt_succ hi))
    refine ⟨x :: q, ?_, by simp [hqlen], ?_⟩
    · rw [List.mem_sections]
      exact List.Forall₂.cons (by simpa using hx) (List.mem_sections.1 hq)
    · intro i hi
      cases i with
      | zero => simpa using hPx
      | succ j => simpa using hqP j (by simpa using hi)

lemma sections_mem_pointwise (L : List (List ℕ)) (p : List ℕ)
    (hp : p ∈ L.sections) :
    p.length = L.length ∧ ∀ i, i < L.length → p.getD i 0 ∈ L.getD i [] := by
  rw [List.mem_sections] at hp
  induction hp with
  | nil => exact ⟨rfl, by intro i hi; simp at hi⟩
  | cons hx _ ih =>
    refine ⟨by simp [ih.1], ?_⟩
    intro i hi
    cases i with
    | zero => simpa using hx
    | succ j => simpa using ih.2 j (by simpa using hi)

lemma getD_mem_of_lt {l : List ℕ} {i : ℕ} (h : i < l.length) :
    l.getD i 0 ∈ l := by
  rw [List.getD_eq_getElem _ _ h]
  exact List.getElem_mem h

lemma length_axisList (S W : List ℕ) (o : ℚ) (hlen : S.length = W.length) :
    (List.zipWith (fun s w => axisOrigins s w (strideOf w o)) S W).length
      = S.length := by
  rw [List.length_zipWith]; omega

lemma getD_axisList (S W : List ℕ) (o : ℚ) (hlen : S.length = W.length)
    {i : ℕ} (hi : i < S.length) :
    (List.zipWith (fun s w => axisOrigins s w (strideOf w o)) S W).getD i []
      = axisOrigins (S.getD i 0) (W.getD i 0) (strideOf (W.getD i 0) o) :=
  getD_zipWith _ S W i 0 0 [] hi (by omega)

lemma getD_patchLens (S W : List ℕ) (hlen : S.length = W.length)
    {i : ℕ} (hi : i < S.length) :
    (patchLens S W).getD i 0 = axisLen (S.getD i 0) (W.getD i 0) :=
  getD_zipWith _ S W i 0 0 0 hi (by omega)

lemma tileOrigins_cover (S W : List ℕ) (o : ℚ) (hlen : S.length = W.length)
    (hW : ∀ w ∈ W, 1 ≤ w) (ho0 : 0 ≤ o) :
    ∀ v : List ℕ, (∀ i, i < S.length → v.getD i 0 < S.getD i 0) →
      ∃ p ∈ tileOrigins S W o, p.length = S.length ∧
        ∀ i, i < S.length →
          p.getD i 0 ≤ v.getD i 0 ∧
          v.getD i 0 < p.getD i 0 + (patchLens S W).getD i 0 := by
  intro v hv
  obtain ⟨p, hp, hplen, hpP⟩ := sections_exists
    (List.zipWith (fun s w => axisOrigins s w (strideOf w o)) S W)
    (fun i x => x ≤ v.getD i 0 ∧
      v.getD i 0 < x + (patchLens S W).getD i 0)
    (by
      intro i hi
      rw [length_axisList S W o hlen] at hi
      rw [getD_axisList S W o hlen hi]
      have hWpos : 1 ≤ W.getD i 0 := hW _ (getD_mem_of_lt (by omega))
      obtain ⟨x, hx, hx1, hx2⟩ := axisOrigins_cover
        (one_le_strideOf (W.getD i 0) o)
        (strideOf_le (W.getD i 0) hWpos o ho0) (hv i hi)
      exact ⟨x, hx, hx1, by rw [getD_patchLens S W hlen hi]; exact hx2⟩)
  rw [length_axisList S W o hlen] at hplen
  exact ⟨p, hp, hplen, fun i hi => hpP i (by rw [length_axisList S W o hlen]; omega)⟩

lemma tileOrigins_inside (S W : List ℕ) (o : ℚ) (hlen : S.length = W.length) :
    ∀ p ∈ tileOrigins S W o, p.length = S.length ∧
      ∀ i, i < S.length →
        p.getD i 0 + (patchLens S W).getD i 0 ≤ S.getD i 0 := by
  intro p hp
  obtain ⟨hplen, hpmem⟩ := sections_mem_pointwise _ p hp
  rw [length_axisList S W o hlen] at hplen
  refine ⟨hplen, ?_⟩
  intro i hi
  have hm := hpmem i (by rw [length_axisList S W o hlen]; omega)
  rw [getD_axisList S W o hlen hi] at hm
  rw [getD_patchLens S W hlen hi]
  exact mem_axisOrigins_bound hm

/-- C1: for every volume shape `S`, per-axis window size `W` (positive) and
overlap fraction `o ∈ [0, 1)`, the Patch Tiler's ordered list of patch
origins (stride `round(W * (1 - o))` clamped to at least 1, final patch on
each axis pulled back to end at the boundary) covers every in-range voxel —
its union is the full index range `[0, S)` on every axis — and every
emitted patch lies fully inside the volume (no out-of-bounds indices). -/
theorem C1_tiler_coverage (S W : List ℕ) (o : ℚ) (hlen : S.length = W.length)
    (hW : ∀ w ∈ W, 1 ≤ w) (ho0 : 0 ≤ o) (ho1 : o < 1) :
    (∀ v : List ℕ, v.length = S.length →
       (∀ i, i < S.length → v.getD i 0 < S.getD i 0) →
       ∃ p ∈ tileOrigins S W o, p.length = S.length ∧
         ∀ i, i < S.length →
           p.getD i 0 ≤ v.getD i 0 ∧
           v.getD i 0 < p.getD i 0 + (patchLens S W).getD i 0) ∧
    (∀ p ∈ tileOrigins S W o, p.length = S.length ∧
       ∀ i, i < S.length →
         p.getD i 0 + (patchLens S W).getD i 0 ≤ S.getD i 0) :=
  ⟨fun v _ hv => tileOrigins_cover S W o hlen hW ho0 v hv,
   tileOrigins_inside S W o hlen⟩

/-- Witness for C1 at shape `[6, 5]`, window `[4, 4]`, overlap `1/2`
(stride 2 per axis), instantiated at voxel `[5, 4]`. -/
theorem C1_tiler_coverage_witness :
    (0 : ℚ) ≤ 1 / 2 ∧ (1 : ℚ) / 2 < 1 ∧
    ∃ p ∈ tileOrigins [6, 5] [4, 4] (1 / 2),
      p.length = ([6, 5] : List ℕ).length ∧
      ∀ i, i < ([6, 5] : List ℕ).length →
        p.getD i 0 ≤ ([5, 4] : List ℕ).getD i 0 ∧
        ([5, 4] : List ℕ).getD i 0 <
          p.getD i 0 + (patchLens [6, 5] [4, 4]).getD i 0 :=
  ⟨by norm_num, by norm_num,
    (C1_tiler_coverage [6, 5] [4, 4] (1 / 2) rfl (by decide)
      (by norm_num) (by norm_num)).1 [5, 4] rfl (by decide)⟩

/-! ### Blend Aggregator -/

/-- Modelled from the spec: whether the patch with origin `p` and per-axis
lengths `lens` contains voxel `v`. -/
def inPatch (p lens v : List ℕ) : Bool :=
  (List.range v.length).all fun i =>
    decide (p.getD i 0 ≤ v.getD i 0 ∧
      v.getD i 0 < p.getD i 0 + lens.getD i 0)

/-- Modelled from the spec: the Blend Aggregator's per-voxel accumulated
weight after consuming a list of patches, with the uniform importance
weight `1.0` per covered voxel. -/
def weight_total (patches : List (List ℕ)) (lens : List ℕ) (v : List ℕ) : ℚ :=
  (patches.map fun p => if inPatch p lens v then (1 : ℚ) else 0).sum

/-- C2: after the Blend Aggregator has consumed the full set of patches
emitted by the Patch Tiler for any volume, `weight_total[voxel] > 0` holds
for every in-range voxel, so normalization never divides by zero. -/
theorem C2_weight_total_pos (S W : List ℕ) (o : ℚ)
    (hlen : S.length = W.length) (hW : ∀ w ∈ W, 1 ≤ w)
    (ho0 : 0 ≤ o) (ho1 : o < 1)
    (v : List ℕ) (hvlen : v.length = S.length)
    (hv : ∀ i, i < S.length → v.getD i 0 < S.getD i 0) :
    0 < weight_total (tileOrigins S W o) (patchLens S W) v := by
  obtain ⟨p, hp, hplen, hpP⟩ := tileOrigins_cover S W o hlen hW ho0 v hv
  have hin : inPatch p (patchLens S W) v = true := by
    unfold inPatch
    rw [List.all_eq_true]
    intro i hi
    rw [List.mem_range] at hi
    exact decide_eq_true (hpP i (by omega))
  have hmem : (1 : ℚ) ∈
      (tileOrigins S W o).map
        (fun p => if inPatch p (patchLens S W) v then (1 : ℚ) else 0) := by
    exact List.mem_map.2 ⟨p, hp, by rw [hin]; simp⟩
  have hnonneg : ∀ x ∈ (tileOrigins S W o).map
      (fun p => if inPatch p (patchLens S W) v then (1 : ℚ) else 0), 0 ≤ x := by
    intro x hx
    rw [List.mem_map] at hx
    obtain ⟨q, _, rfl⟩ := hx
    by_cases h : inPatch q (patchLens S W) v <;> simp [h]
  have h1 : (1 : ℚ) ≤ weight_total (tileOrigins S W o) (patchLens S W) v :=
    List.single_le_sum hnonneg _ hmem
  linarith

/-- Witness for C2 at shape `[6, 5]`, window `[4, 4]`, overlap `1/2`,
voxel `[5, 4]`. -/
theorem C2_weight_total_pos_witness :
    0 < weight_total (tileOrigins [6, 5] [4, 4] (1 / 2))
      (patchLens [6, 5] [4, 4]) [5, 4] :=
  C2_weight_total_pos [6, 5] [4, 4] (1 / 2) rfl (by decide)
    (by norm_num) (by norm_num) [5, 4] rfl (by decide)

/-- Modelled from the spec: the Blend Aggregator's per-voxel weighted score
sum in one dimension: each contribution is a patch start index paired with
its score function over patch-local positions, added with uniform weight 1
over the patch's voxel range. -/
def weightedSum1D (len : ℕ) (contribs : List (ℕ × (ℕ → ℚ))) (v : ℕ) : ℚ :=
  (contribs.map fun c =>
    if c.1 ≤ v ∧ v < c.1 + len then c.2 (v - c.1) else 0).sum

/-- Modelled from the spec: the 1-D per-voxel weight accumulator with
uniform weight 1. -/
def weightTotal1D (len : ℕ) (contribs : List (ℕ × (ℕ → ℚ))) (v : ℕ) : ℚ :=
  (contribs.map fun c =>
    if c.1 ≤ v ∧ v < c.1 + len then (1 : ℚ) else 0).sum

/-- Modelled from the spec: normalization divides the accumulated weighted
score by the accumulated weight at each voxel. -/
def normalize1D (len : ℕ) (contribs : List (ℕ × (ℕ → ℚ))) (v : ℕ) : ℚ :=
  weightedSum1D len contribs v / weightTotal1D len contribs v

/-- C3: with uniform weighting, for two 1-D patches of length 4 starting at
0 and 2 (overlapping by 2 voxels), a voxel covered by both patches
normalizes to the arithmetic mean of the two patches' scores there, and a
voxel covered by exactly one patch normalizes to that patch's score
exactly; moreover aggregation is order-independent: any permutation of the
contributions yields the same normalized value. -/
theorem C3_overlap_averaging (f g : ℕ → ℚ) (v : ℕ) :
    (2 ≤ v → v < 4 →
      normalize1D 4 [(0, f), (2, g)] v = (f v + g (v - 2)) / 2) ∧
    (v < 2 → normalize1D 4 [(0, f), (2, g)] v = f v) ∧
    (4 ≤ v → v < 6 → normalize1D 4 [(0, f), (2, g)] v = g (v - 2)) ∧
    (∀ (len : ℕ) (l₁ l₂ : List (ℕ × (ℕ → ℚ))) (w : ℕ), l₁.Perm l₂ →
      normalize1D len l₁ w = normalize1D len l₂ w) := by
  refine ⟨?_, ?_, ?_, ?_⟩
  · intro h2 h4
    unfold normalize1D weightedSum1D weightTotal1D
    simp only [List.map_cons, List.map_nil, List.sum_cons, List.sum_nil]
    rw [if_pos ⟨Nat.zero_le v, by omega⟩, if_pos ⟨h2, by omega⟩,
      if_pos ⟨Nat.zero_le v, by omega⟩, if_pos ⟨h2, by omega⟩]
    simp only [Nat.sub_zero]
    norm_num
  · intro h2
    unfold normalize1D weightedSum1D weightTotal1D
    simp only [List.map_cons, List.map_nil, List.sum_cons, List.sum_nil]
    rw [if_pos ⟨Nat.zero_le v, by omega⟩, if_neg (by omega),
      if_pos ⟨Nat.zero_le v, by omega⟩, if_neg (by omega)]
    simp only [Nat.sub_zero]
    norm_num
  · intro h4 h6
    unfold normalize1D weightedSum1D weightTotal1D
    simp only [List.map_cons, List.map_nil, List.sum_cons, List.sum_nil]
    rw [if_neg (by omega), if_pos ⟨by omega, by omega⟩,
      if_neg (by omega), if_pos ⟨by omega, by omega⟩]
    norm_num
  · intro len l₁ l₂ w hperm
    unfold normalize1D weightedSum1D weightTotal1D
    rw [List.Perm.sum_eq (hperm.map _), List.Perm.sum_eq (hperm.map _)]

/-- Witness for C3: constant scores 1 and 3 average to 2 on the overlap
voxel 2. -/
theorem C3_overlap_averaging_witness :
    normalize1D 4 [(0, fun _ => (1 : ℚ)), (2, fun _ => (3 : ℚ))] 2 = 2 := by
  have h := (C3_overlap_averaging (fun _ => (1 : ℚ)) (fun _ => (3 : ℚ)) 2).1
    (by norm_num) (by norm_num)
  rw [h]
  norm_num

/-! ### Label Extractor -/

/-- Modelled from the spec: per-voxel arg-max over the class scores with
ties broken by the lowest class index (the `torch.argmax(predictions, dim=1)`
step of `save_predictions`). -/
def argmaxIdx : List ℚ → ℕ
  | [] => 0
  | [_] => 0
  | x :: y :: ys =>
    if x < (y :: ys).getD (argmaxIdx (y :: ys)) 0 then
      argmaxIdx (y :: ys) + 1
    else 0

/-- The Label Extractor: one arg-max class index per voxel. -/
def labelExtract (vol : List (List ℚ)) : List ℕ :=
  vol.map argmaxIdx

lemma argmaxIdx_spec : ∀ l : List ℚ, l ≠ [] →
    argmaxIdx l < l.length ∧
    (∀ j, j < l.length → l.getD j 0 ≤ l.getD (argmaxIdx l) 0) ∧
    (∀ j, j < l.length → l.getD j 0 = l.getD (argmaxIdx l) 0 →
      argmaxIdx l ≤ j) := by
  intro l
  induction l with
  | nil => intro h; exact absurd rfl h
  | cons x xs ih =>
    intro _
    cases xs with
    | nil =>
      refine ⟨by simp [argmaxIdx], ?_, ?_⟩
      · intro j hj
        have hj0 : j = 0 := by simpa using hj
        subst hj0
        simp [argmaxIdx]
      · intro j hj _
        simp [argmaxIdx]
    | cons y ys =>
      obtain ⟨hr1, hr2, hr3⟩ := ih (by simp)
      by_cases hx : x < (y :: ys).getD (argmaxIdx (y :: ys)) 0
      · have ham : argmaxIdx (x :: y :: ys) = argmaxIdx (y :: ys) + 1 := by
          simp only [argmaxIdx]
          rw [if_pos hx]
        rw [ham]
        refine ⟨by simpa using hr1, ?_, ?_⟩
        · intro j hj
          cases j with
          | zero =>
            simpa using le_of_lt hx
          | succ k =>
            simp only [List.getD_cons_succ]
            exact hr2 k (by simpa using hj)
        · intro j hj heq
          cases j with
          | zero =>
            exfalso
            simp only [List.getD_cons_zero, List.getD_cons_succ] at heq
            exact absurd heq (ne_of_lt hx)
          | succ k =>
            simp only [List.getD_cons_succ] at heq
            exact Nat.succ_le_succ (hr3 k (by simpa using hj) heq)
      · have ham : argmaxIdx (x :: y :: ys) = 0 := by
          simp only [argmaxIdx]
          rw [if_neg hx]
        rw [ham]
        refine ⟨by simp, ?_, ?_⟩
        · intro j hj
          cases j with
          | zero => simp
          | succ k =>
            simp only [List.getD_cons_succ, List.getD_cons_zero]
            exact le_trans (hr2 k (by simpa using hj)) (not_lt.mp hx)
        · intro j _ _
          exact Nat.zero_le _

/-- C6: the Label Extractor assigns each voxel the index of the
maximum-scoring class, and when classes tie for the maximum it returns the
lowest tying class index; being a pure function of the score volume, it
behaves identically across repeated runs. -/
theorem C6_argmax_lowest_tie (vol : List (List ℚ)) (i : ℕ)
    (hi : i < vol.length) (hne : vol.getD i [] ≠ []) :
    (labelExtract vol).length = vol.length ∧
    (labelExtract vol).getD i 0 = argmaxIdx (vol.getD i []) ∧
    argmaxIdx (vol.getD i []) < (vol.getD i []).length ∧
    (∀ j, j < (vol.getD i []).length →
      (vol.getD i []).getD j 0 ≤
        (vol.getD i []).getD (argmaxIdx (vol.getD i [])) 0) ∧
    (∀ j, j < (vol.getD i []).length →
      (vol.getD i []).getD j 0 =
        (vol.getD i []).getD (argmaxIdx (vol.getD i [])) 0 →
      argmaxIdx (vol.getD i []) ≤ j) := by
  obtain ⟨h1, h2, h3⟩ := argmaxIdx_spec (vol.getD i []) hne
  refine ⟨by simp [labelExtract], ?_, h1, h2, h3⟩
  have hmap : i < (labelExtract vol).length := by simp [labelExtract]; omega
  rw [List.getD_eq_getElem _ _ hmap, List.getD_eq_getElem _ _ hi]
  simp [labelExtract]

/-- Witness for C6: score volume `[[1, 3, 3], [2, 2]]` — at voxel 0 classes
1 and 2 tie and the extractor returns class 1; at the applied voxel the
properties hold concretely. -/
theorem C6_argmax_lowest_tie_witness :
    (labelExtract [[1, 3, 3], [2, 2]] : List ℕ).length = 2 ∧
    (labelExtract [([1, 3, 3] : List ℚ), [2, 2]]).getD 0 0 =
      argmaxIdx [1, 3, 3] ∧
    argmaxIdx ([1, 3, 3] : List ℚ) < 3 ∧
    (∀ j, j < 3 → ([1, 3, 3] : List ℚ).getD j 0 ≤
      ([1, 3, 3] : List ℚ).getD (argmaxIdx [1, 3, 3]) 0) ∧
    (∀ j, j < 3 → ([1, 3, 3] : List ℚ).getD j 0 =
      ([1, 3, 3] : List ℚ).getD (argmaxIdx [1, 3, 3]) 0 →
      argmaxIdx ([1, 3, 3] : List ℚ) ≤ j) := by
  have h := C6_argmax_lowest_tie [[1, 3, 3], [2, 2]] 0 (by norm_num)
    (by simp)
  simpa using h

/-! ### Model-artifact key remapping -/

/-- The pattern `"module."` removed from state-dict keys. -/
def modulePat : List Char := ['m', 'o', 'd', 'u', 'l', 'e', '.']

/-- Fuel-indexed worker for `replaceModule`; the fuel dominates the list
length so the recursion is structural. -/
def replaceModuleAux : ℕ → List Char → List Char
  | _, [] => []
  | 0, l => l
  | fuel + 1, c :: cs =>
    if (c :: cs).take 7 = modulePat then
      replaceModuleAux fuel ((c :: cs).drop 7)
    else c :: replaceModuleAux fuel cs

/-- Embedding of the key remapping `k.replace("module.", "")` on line 58 of
`grace.py`: Python `str.replace` removes every non-overlapping occurrence of
the pattern, scanning left to right and continuing after each removal. -/
def replaceModule (l : List Char) : List Char :=
  replaceModuleAux l.length l

/-- Embedding of line 58 of `grace.py`: the state-dict comprehension
remaps every key through `replaceModule`. -/
def remapKeys (keys : List (List Char)) : List (List Char) :=
  keys.map replaceModule

/-- Whether the pattern `"module."` occurs anywhere in a key. -/
def hasModuleDot : List Char → Bool
  | [] => false
  | c :: cs => decide ((c :: cs).take 7 = modulePat) || hasModuleDot cs

/-- Modelled from the spec: `model.load_state_dict(state_dict, strict=False)`
(line 59 of `grace.py`) tolerates keys present in the file but absent from
the model; only a strict load would require the key sets to coincide. -/
def load_state_dict (modelKeys fileKeys : List (List Char))
    (strict : Bool) : Except Unit Unit :=
  if strict &&
      !(fileKeys.all (fun k => modelKeys.contains k) &&
        modelKeys.all (fun k => fileKeys.contains k)) then
    Except.error ()
  else Except.ok ()

lemma replaceModuleAux_fuel_irrel :
    ∀ (fuel₁ fuel₂ : ℕ) (l : List Char), l.length ≤ fuel₁ → l.length ≤ fuel₂ →
      replaceModuleAux fuel₁ l = replaceModuleAux fuel₂ l := by
  intro fuel₁
  induction fuel₁ with
  | zero =>
    intro fuel₂ l h₁ _
    have : l = [] := List.length_eq_zero.1 (by omega)
    subst this
    cases fuel₂ <;> rfl
  | succ f ih =>
    intro fuel₂ l h₁ h₂
    cases l with
    | nil => cases fuel₂ <;> rfl
    | cons c cs =>
      cases fuel₂ with
      | zero => simp at h₂
      | succ f₂ =>
        simp only [replaceModuleAux]
        by_cases hpat : (c :: cs).take 7 = modulePat
        · rw [if_pos hpat, if_pos hpat]
          apply ih f₂
          · simp only [List.length_drop, List.length_cons] at h₁ ⊢
            omega
          · simp only [List.length_drop, List.length_cons] at h₂ ⊢
            omega
        · rw [if_neg hpat, if_neg hpat]
          rw [ih f₂ cs (by simpa using Nat.le_of_succ_le_succ h₁)
            (by simpa using Nat.le_of_succ_le_succ h₂)]

lemma replaceModule_of_lead (l : List Char) (h : l.take 7 = modulePat) :
    replaceModule l = replaceModule (l.drop 7) := by
  cases l with
  | nil => simp [modulePat] at h
  | cons c cs =>
    unfold replaceModule
    simp only [List.length_cons, replaceModuleAux]
    rw [if_pos h]
    exact replaceModuleAux_fuel_irrel _ _ _ (by simp) (by simp)

lemma replaceModule_of_no_occurrence :
    ∀ l : List Char, hasModuleDot l = false → replaceModule l = l := by
  have haux : ∀ (fuel : ℕ) (l : List Char), l.length ≤ fuel →
      hasModuleDot l = false → replaceModuleAux fuel l = l := by
    intro fuel
    induction fuel with
    | zero =>
      intro l h₁ _
      have : l = [] := List.length_eq_zero.1 (by omega)
      subst this
      rfl
    | succ f ih =>
      intro l h₁ h₂
      cases l with
      | nil => rfl
      | cons c cs =>
        simp only [hasModuleDot, Bool.or_eq_false_iff,
          decide_eq_false_iff_not] at h₂
        simp only [replaceModuleAux]
        rw [if_neg h₂.1]
        rw [ih cs (by simpa using Nat.le_of_succ_le_succ h₁) h₂.2]
  intro l h
  exact haux l.length l le_rfl h

/-- C5 counterexample: the key `"encoder.module.weight"` does not start
with `"module."`, yet the remapping of line 58 alters it (Python
`str.replace` removes non-leading occurrences too), contradicting the
claim that every key without the leading pattern is left unchanged. -/
theorem C5_counterexample :
    ("encoder.module.weight".toList.take 7 ≠ modulePat) ∧
    replaceModule "encoder.module.weight".toList ≠
      "encoder.module.weight".toList := by
  constructor
  · decide
  · decide

/-- C5 amended: the key remapping removes every left-to-right
non-overlapping occurrence of `"module."` from a key — in particular a
leading distributed-training occurrence — keys containing no occurrence at
all are left unchanged, and loading passes `strict=False`, which tolerates
keys present in the file but absent from the model definition. -/
theorem C5_key_remapping (k : List Char) :
    (k.take 7 = modulePat → replaceModule k = replaceModule (k.drop 7)) ∧
    (hasModuleDot k = false → replaceModule k = k) ∧
    (∀ modelKeys fileKeys : List (List Char),
      load_state_dict modelKeys fileKeys false = Except.ok ()) := by
  refine ⟨replaceModule_of_lead k, replaceModule_of_no_occurrence k, ?_⟩
  intro modelKeys fileKeys
  rfl

/-- Witness for C5: the leading pattern is stripped from
`"module.out.weight"` and the pattern-free key `"out.weight"` is kept
intact. -/
theorem C5_key_remapping_witness :
    replaceModule "module.out.weight".toList =
      replaceModule ("module.out.weight".toList.drop 7) ∧
    replaceModule "out.weight".toList = "out.weight".toList :=
  ⟨(C5_key_remapping "module.out.weight".toList).1 (by decide),
   (C5_key_remapping "out.weight".toList).2.1 (by decide)⟩

/-! ### Pipeline embedding -/

/-- A volume as the pipeline handles it: spatial shape, the diagonal voxel
spacing of its affine (the part of the affine the Spatial Normalizer
changes), and an opaque header blob carried through for output fidelity. -/
structure Nifti where
  shape : List ℕ
  spacing : List ℚ
  header : ℕ
deriving DecidableEq

/-- Observable effects of one run: progress lines, directory creation,
output-file writes and plain console messages. -/
inductive Event where
  | progress (msg : String) (pct : ℕ)
  | mkdirOutput (dir : String)
  | writeFile (path : String)
  | printMsg (msg : String)
deriving DecidableEq

/-- Fatal conditions of the pipeline. -/
inductive GraceError where
  | invalidInput
  | inferenceFailure
deriving DecidableEq

/-- The external world: which files exist (`os.path.isfile`), what
`nib.load` returns for a path (`none` = unreadable), the model artifact's
state-dict keys, the opaque per-batch model call (`none` models a failure
inside the model call on that batch), and device availability. -/
structure Env where
  files : List String
  loadVolume : String → Option Nifti
  stateDictKeys : List (List Char)
  predictBatch : List (List ℕ) → Option Unit
  cudaAvailable : Bool
  mpsAvailable : Bool

/-- Embedding of `send_progress`: printing one progress update is recorded
as a progress event carrying the message and the integer percentage. -/
def send_progress (message : String) (progress : ℕ) : Event :=
  Event.progress message progress

/-- Device chosen by `grace_predict_single_file` lines 146-151: CUDA when
available, with a CPU fallback when only the MPS backend is present. -/
def selectDevice (env : Env) : String :=
  if env.mpsAvailable && !env.cudaAvailable then "cpu"
  else if env.cudaAvailable then "cuda" else "cpu"

/-- The progress line emitted by the device-selection branch. -/
def deviceEvent (env : Env) : Event :=
  if env.mpsAvailable && !env.cudaAvailable then
    send_progress
      "Using MPS backend (CPU due to ConvTranspose3d support limitations)" 5
  else send_progress ("Using device: " ++ selectDevice env) 5

/-- Embedding of `load_model`: builds the (opaque) model, loads the state
dict with the key remapping of line 58 and `strict=False`, and emits the
fixed progress milestones. The model value is represented by its remapped
parameter-key list. -/
def load_model (env : Env) (model_path : String) (spatial_size : List ℕ)
    (num_classes : ℕ) (device : String) (dataparallel : Bool)
    (num_gpu : ℕ) : List (List Char) × List Event :=
  (remapKeys env.stateDictKeys,
   [send_progress "Configuring model..." 10,
    send_progress ("Loading model weights from " ++ model_path ++ "...") 20,
    send_progress "Model loaded successfully." 25])

/-- Modelled from the spec: the preprocessing transforms. `Spacingd`
resamples to unit spacing, scaling each axis extent by its voxel spacing
(up to rounding); `Orientationd` reorients axes (the identity on this
diagonal-spacing abstraction); `ScaleIntensityRanged` rescales intensities
only and leaves the geometry alone. -/
def spatialNormalize (img : Nifti) : Nifti :=
  { shape := List.zipWith
      (fun (n : ℕ) (sp : ℚ) => (round ((n : ℚ) * sp)).toNat)
      img.shape img.spacing,
    spacing := img.spacing.map (fun _ => (1 : ℚ)),
    header := img.header }

/-- Embedding of `preprocess_input`: loads the input image, applies the
transforms, and returns the preprocessed tensor's volume together with the
original loaded image (the source returns `input_img`, the unresampled
`nib.load` result). -/
def preprocess_input (env : Env) (input_path : String) (device : String)
    (a_min_value a_max_value : ℚ) :
    Except GraceError (Nifti × Nifti) × List Event :=
  match env.loadVolume input_path with
  | none =>
    (Except.error GraceError.invalidInput,
     [send_progress ("Loading input image from " ++ input_path ++ "...") 30])
  | some img =>
    (Except.ok (spatialNormalize img, img),
     [send_progress ("Loading input image from " ++ input_path ++ "...") 30,
      send_progress "Input image loaded." 35,
      send_progress "Applying preprocessing transforms..." 40,
      send_progress "Preprocessing complete." 45])

/-- Invokes the opaque model on each batch in order, aborting on the first
failing batch. -/
def runBatches (env : Env) : List (List (List ℕ)) → Except GraceError Unit
  | [] => Except.ok ()
  | b :: bs =>
    match env.predictBatch b with
    | none => Except.error GraceError.inferenceFailure
    | some _ => runBatches env bs

/-- Modelled from the spec: MONAI `sliding_window_inference` — tile the
volume with the Patch Tiler, group the patches into batches of at most
`sw_batch_size`, invoke the model per batch, and on success return the
per-class score volume with the same spatial shape as the input tensor. -/
def sliding_window_inference (env : Env) (tensorShape roi_size : List ℕ)
    (sw_batch_size : ℕ) (overlap : ℚ) : Except GraceError (List ℕ) :=
  match runBatches env
      (List.toChunks sw_batch_size (tileOrigins tensorShape roi_size overlap)) with
  | Except.error e => Except.error e
  | Except.ok _ => Except.ok tensorShape

/-- Characters of the base filename: everything before the first `".nii"`
(Python `split(".nii")[0]`). -/
def takeUntilNii : List Char → List Char
  | [] => []
  | c :: cs =>
    if (c :: cs).take 4 = ['.', 'n', 'i', 'i'] then []
    else c :: takeUntilNii cs

/-- Embedding of `os.path.basename(input_path).split(".nii")[0]`. -/
def baseFilename (input_path : String) : String :=
  String.mk (takeUntilNii
    ((input_path.toList.reverse.takeWhile (fun c => c ≠ '/')).reverse))

/-- Embedding of `save_predictions`: arg-max post-processing, then the
NIfTI file written with `affine=input_img.affine, header=input_img.header`
and the data shape of the predictions, then the MAT file. Returns the saved
label volume and the emitted events. -/
def save_predictions (predsShape : List ℕ) (input_img : Nifti)
    (output_dir base_filename : String) : Nifti × List Event :=
  ({ shape := predsShape,
     spacing := input_img.spacing,
     header := input_img.header },
   [send_progress "Post-processing predictions..." 80,
    send_progress "Saving NIfTI file..." 85,
    Event.writeFile (output_dir ++ "/" ++ base_filename ++ "_pred_GRACE.nii.gz"),
    send_progress "Saving MAT file..." 90,
    Event.writeFile (output_dir ++ "/" ++ base_filename ++ "_pred_GRACE.mat"),
    send_progress "Files saved successfully." 95])

/-- Embedding of `grace_predict_single_file`: create the output directory,
select the device, load the model, preprocess the input, run sliding-window
inference with window `spatial_size`, batch size 4 and overlap `0.8`, and
save the predictions; the result is the saved label volume (or the fatal
error) together with the ordered event trace. -/
def grace_predict_single_file (env : Env)
    (input_path output_dir model_path : String) (spatial_size : List ℕ)
    (num_classes : ℕ) (dataparallel : Bool) (num_gpu : ℕ)
    (a_min_value a_max_value : ℚ) : Except GraceError Nifti × List Event :=
  let base_filename := baseFilename input_path
  let device := selectDevice env
  let lm := load_model env model_path spatial_size num_classes device
    dataparallel num_gpu
  let pre := preprocess_input env input_path device a_min_value a_max_value
  let ev0 := Event.mkdirOutput output_dir :: deviceEvent env ::
    (lm.2 ++ pre.2)
  match pre.1 with
  | Except.error e => (Except.error e, ev0)
  | Except.ok (tensor, input_img) =>
    match sliding_window_inference env tensor.shape spatial_size 4 (4 / 5) with
    | Except.error e =>
      (Except.error e,
       ev0 ++ [send_progress "Starting sliding window inference..." 50])
    | Except.ok predsShape =>
      let sp := save_predictions predsShape input_img output_dir base_filename
      (Except.ok sp.1,
       ev0 ++ [send_progress "Starting sliding window inference..." 50,
               send_progress "Inference completed successfully." 75] ++
         sp.2 ++ [send_progress "Processing completed successfully!" 100])

/-- The data path of `grace_predict_single_file` alone — the same stages
with every progress emission stripped; used to state that progress
reporting never affects control flow or results. -/
def graceOutput (env : Env) (input_path : String)
    (spatial_size : List ℕ) : Except GraceError Nifti :=
  match env.loadVolume input_path with
  | none => Except.error GraceError.invalidInput
  | some img =>
    match sliding_window_inference env (spatialNormalize img).shape
        spatial_size 4 (4 / 5) with
    | Except.error e => Except.error e
    | Except.ok predsShape =>
      Except.ok { shape := predsShape, spacing := img.spacing,
                  header := img.header }

/-- Embedding of Python `input_path.endswith('.nii.gz')`. -/
def endsWithNiiGz (p : String) : Bool :=
  List.isSuffixOf ".nii.gz".toList p.toList

/-- Embedding of the `__main__` block: argument-count checks, then the
input-path validation of lines 184-185, and only in the valid case the call
to `grace_predict_single_file`; yields the event trace of the process. -/
def mainRun (env : Env) (argv : List String) : List Event :=
  if argv.length < 2 then [Event.printMsg "Path for input file expected!"]
  else if 3 < argv.length then [Event.printMsg "Too many arguments...!"]
  else
    let input_path := argv.getD 1 ""
    if env.files.contains input_path = false ∨
        endsWithNiiGz input_path = false then
      [Event.printMsg "Error: Input file does not exist or is not a .nii.gz file."]
    else
      (grace_predict_single_file env input_path "outputs" "GRACE.pth"
        [64, 64, 64] 12 false 1 0 255).2 ++
        [Event.printMsg "Output files generated...!"]

/-- Does an event write an output file? -/
def isWrite : Event → Bool
  | Event.writeFile _ => true
  | _ => false

/-- The integer percentages carried by the progress events of a trace, in
emission order. -/
def percentsOf (evs : List Event) : List ℕ :=
  evs.filterMap fun ev =>
    match ev with
    | Event.progress _ p => some p
    | _ => none

lemma isWrite_deviceEvent (env : Env) : isWrite (deviceEvent env) = false := by
  unfold deviceEvent
  split <;> rfl

lemma isWrite_progress (m : String) (p : ℕ) :
    isWrite (Event.progress m p) = false := rfl

lemma isWrite_mkdir (d : String) : isWrite (Event.mkdirOutput d) = false := rfl

lemma percentsOf_deviceEvent (env : Env) (rest : List Event) :
    percentsOf (deviceEvent env :: rest) = 5 :: percentsOf rest := by
  unfold deviceEvent
  split <;> rfl

lemma percentsOf_nil : percentsOf [] = [] := rfl

lemma percentsOf_cons_progress (m : String) (p : ℕ) (rest : List Event) :
    percentsOf (Event.progress m p :: rest) = p :: percentsOf rest := rfl

lemma percentsOf_cons_mkdir (d : String) (rest : List Event) :
    percentsOf (Event.mkdirOutput d :: rest) = percentsOf rest := rfl

lemma percentsOf_cons_write (f : String) (rest : List Event) :
    percentsOf (Event.writeFile f :: rest) = percentsOf rest := rfl

lemma swi_ok_shape {env : Env} {ts roi : List ℕ} {b : ℕ} {o : ℚ}
    {s : List ℕ} (h : sliding_window_inference env ts roi b o = Except.ok s) :
    s = ts := by
  unfold sliding_window_inference at h
  cases hrb : runBatches env (List.toChunks b (tileOrigins ts roi o)) with
  | error e => rw [hrb] at h; exact absurd h (by simp)
  | ok u => rw [hrb] at h; exact (Except.ok.inj h).symm

lemma graceOutput_eq (env : Env) (input_path output_dir model_path : String)
    (spatial_size : List ℕ) (num_classes : ℕ) (dp : Bool) (ng : ℕ)
    (amin amax : ℚ) :
    (grace_predict_single_file env input_path output_dir model_path
      spatial_size num_classes dp ng amin amax).1
      = graceOutput env input_path spatial_size := by
  unfold grace_predict_single_file graceOutput preprocess_input
  cases hload : env.loadVolume input_path with
  | none => simp
  | some img =>
    simp only []
    cases hinf : sliding_window_inference env (spatialNormalize img).shape
        spatial_size 4 (4 / 5) with
    | error e => simp [hinf]
    | ok s => simp [hinf, save_predictions]

lemma runBatches_ok (env : Env)
    (h : ∀ b, env.predictBatch b = some ()) :
    ∀ bs, runBatches env bs = Except.ok () := by
  intro bs
  induction bs with
  | nil => rfl
  | cons b rest ih =>
    unfold runBatches
    rw [h b]
    exact ih

lemma run_ok_form (env : Env) (img : Nifti)
    (input_path output_dir model_path : String) (spatial_size : List ℕ)
    (num_classes : ℕ) (dp : Bool) (ng : ℕ) (amin amax : ℚ)
    (hload : env.loadVolume input_path = some img)
    (hpred : ∀ b, env.predictBatch b = some ()) :
    ∃ evs, grace_predict_single_file env input_path output_dir model_path
        spatial_size num_classes dp ng amin amax =
      (Except.ok (Nifti.mk (spatialNormalize img).shape img.spacing
        img.header), evs) := by
  have hsw : sliding_window_inference env (spatialNormalize img).shape
      spatial_size 4 (4 / 5) =
      Except.ok (spatialNormalize img).shape := by
    unfold sliding_window_inference
    rw [runBatches_ok env hpred _]
  unfold grace_predict_single_file preprocess_input
  rw [hload]
  simp only []
  rw [hsw]
  exact ⟨_, rfl⟩

/-- Input volume for the C4 counterexample: shape `32³` at spacing `2 mm`,
so the Spatial Normalizer's resampling to `1 mm` changes the geometry. -/
def c4Img : Nifti := Nifti.mk [32, 32, 32] [2, 2, 2] 5

/-- Environment for the C4 counterexample: the load succeeds with `c4Img`
and every model batch call succeeds. -/
def c4Env : Env :=
  { files := ["t.nii.gz"],
    loadVolume := fun _ => some c4Img,
    stateDictKeys := [],
    predictBatch := fun _ => some (),
    cudaAvailable := false,
    mpsAvailable := false }

/-- A volume with no axes: it makes the whole pipeline evaluate without
any resampling arithmetic, for concrete witness runs. -/
def emptyImg : Nifti := Nifti.mk [] [] 0

/-- Environment whose run succeeds, for witness instantiations. -/
def okEnv : Env :=
  { files := ["t.nii.gz"],
    loadVolume := fun _ => some emptyImg,
    stateDictKeys := [],
    predictBatch := fun _ => some (),
    cudaAvailable := false,
    mpsAvailable := false }

/-- Environment whose model call fails on every batch, for witness
instantiations of the abort behaviour. -/
def failEnv : Env :=
  { files := ["t.nii.gz"],
    loadVolume := fun _ => some emptyImg,
    stateDictKeys := [],
    predictBatch := fun _ => none,
    cudaAvailable := false,
    mpsAvailable := false }

/-- C4 is false as stated: on `c4Env` the run succeeds yet the saved
volume carries the original spacing `[2, 2, 2]`, not the spacing
`[1, 1, 1]` of the resampled volume that was fed to the inference
engine. -/
theorem C4_counterexample :
    ∃ saved evs,
      grace_predict_single_file c4Env "t.nii.gz" "outputs" "GRACE.pth"
        [64, 64, 64] 12 false 1 0 255 = (Except.ok saved, evs) ∧
      saved.spacing ≠ (spatialNormalize c4Img).spacing := by
  obtain ⟨evs, hrun⟩ := run_ok_form c4Env c4Img "t.nii.gz" "outputs"
    "GRACE.pth" [64, 64, 64] 12 false 1 0 255 rfl (fun b => rfl)
  refine ⟨_, evs, hrun, ?_⟩
  show c4Img.spacing ≠ (spatialNormalize c4Img).spacing
  have h1 : c4Img.spacing = [2, 2, 2] := rfl
  have h2 : (spatialNormalize c4Img).spacing = [1, 1, 1] := rfl
  rw [h1, h2]
  intro h
  have : (2 : ℚ) = 1 := by injection h
  norm_num at this

/-- C4 amended: the saved label volume carries, bit-for-bit, the affine
(spacing) and header of the ORIGINAL input image as loaded from disk —
not the Spatial Normalizer's output geometry — while its spatial shape is
that of the resampled volume fed to the inference engine. -/
theorem C4_output_geometry (env : Env)
    (input_path output_dir model_path : String) (spatial_size : List ℕ)
    (num_classes : ℕ) (dp : Bool) (ng : ℕ) (amin amax : ℚ)
    (img saved : Nifti) (evs : List Event)
    (hload : env.loadVolume input_path = some img)
    (hrun : grace_predict_single_file env input_path output_dir model_path
      spatial_size num_classes dp ng amin amax = (Except.ok saved, evs)) :
    saved.spacing = img.spacing ∧ saved.header = img.header ∧
    saved.shape = (spatialNormalize img).shape := by
  unfold grace_predict_single_file preprocess_input at hrun
  rw [hload] at hrun
  simp only [] at hrun
  cases hinf : sliding_window_inference env (spatialNormalize img).shape
      spatial_size 4 (4 / 5) with
  | error e => rw [hinf] at hrun; simp at hrun
  | ok s =>
    rw [hinf] at hrun
    have hshape := swi_ok_shape hinf
    simp only [save_predictions, Prod.mk.injEq] at hrun
    have hsaved : saved = Nifti.mk s img.spacing img.header :=
      (Except.ok.inj hrun.1).symm
    subst hsaved
    exact ⟨rfl, rfl, by simpa using hshape⟩

/-- Witness for C4's amended theorem on the concrete `okEnv` run. -/
theorem C4_output_geometry_witness :
    (Nifti.mk [] [] 0).spacing = emptyImg.spacing ∧
    (Nifti.mk [] [] 0).header = emptyImg.header ∧
    (Nifti.mk ([] : List ℕ) [] 0).shape = (spatialNormalize emptyImg).shape :=
  C4_output_geometry okEnv "t.nii.gz" "outputs" "GRACE.pth" [64, 64, 64] 12
    false 1 0 255 emptyImg (Nifti.mk [] [] 0)
    (grace_predict_single_file okEnv "t.nii.gz" "outputs" "GRACE.pth"
      [64, 64, 64] 12 false 1 0 255).2 rfl rfl

/-- C7: whenever the pipeline run ends in a fatal error — in particular an
`InferenceFailure` raised by a per-batch model call — the emitted trace
contains no output-file write: the run aborts before any output file is
written. -/
theorem C7_abort_before_write (env : Env)
    (input_path output_dir model_path : String) (spatial_size : List ℕ)
    (num_classes : ℕ) (dp : Bool) (ng : ℕ) (amin amax : ℚ)
    (e : GraceError) (evs : List Event)
    (hrun : grace_predict_single_file env input_path output_dir model_path
      spatial_size num_classes dp ng amin amax = (Except.error e, evs)) :
    evs.all (fun ev => !isWrite ev) = true := by
  unfold grace_predict_single_file preprocess_input at hrun
  cases hload : env.loadVolume input_path with
  | none =>
    rw [hload] at hrun
    simp only [Prod.mk.injEq] at hrun
    have hevs := hrun.2
    subst hevs
    simp only [load_model, send_progress, List.all_cons, List.all_append,
      List.all_nil, isWrite_deviceEvent, isWrite_progress, isWrite_mkdir,
      Bool.not_false, Bool.and_true, Bool.true_and, Bool.and_self]
  | some img =>
    rw [hload] at hrun
    simp only [] at hrun
    cases hinf : sliding_window_inference env (spatialNormalize img).shape
        spatial_size 4 (4 / 5) with
    | error e' =>
      rw [hinf] at hrun
      simp only [Prod.mk.injEq] at hrun
      have hevs := hrun.2
      subst hevs
      simp only [load_model, send_progress, List.all_cons, List.all_append,
        List.all_nil, isWrite_deviceEvent, isWrite_progress, isWrite_mkdir,
        Bool.not_false, Bool.and_true, Bool.true_and, Bool.and_self]
    | ok s =>
      rw [hinf] at hrun
      simp at hrun

/-- Witness for C7: the failing `failEnv` run's trace has no file write. -/
theorem C7_abort_before_write_witness :
    ((grace_predict_single_file failEnv "t.nii.gz" "outputs" "GRACE.pth"
      [2, 2, 2] 12 false 1 0 255).2).all (fun ev => !isWrite ev) = true :=
  C7_abort_before_write failEnv "t.nii.gz" "outputs" "GRACE.pth" [2, 2, 2] 12
    false 1 0 255 GraceError.inferenceFailure
    (grace_predict_single_file failEnv "t.nii.gz" "outputs" "GRACE.pth"
      [2, 2, 2] 12 false 1 0 255).2 rfl

/-- C8: an invocation of the entry point whose input path does not exist
or does not end in `.nii.gz` only reports the failure: the whole trace is
the single error message — no output directory is created, no model is
loaded (no model-loading progress), and no inference or file write
occurs. -/
theorem C8_invalid_input_no_processing (env : Env) (argv : List String)
    (h2 : 2 ≤ argv.length) (h3 : argv.length ≤ 3)
    (hbad : env.files.contains (argv.getD 1 "") = false ∨
      endsWithNiiGz (argv.getD 1 "") = false) :
    mainRun env argv =
      [Event.printMsg "Error: Input file does not exist or is not a .nii.gz file."] := by
  unfold mainRun
  rw [if_neg (by omega), if_neg (by omega), if_pos hbad]

/-- Environment with no files on disk, for the C8 witness. -/
def bareEnv : Env :=
  { files := [],
    loadVolume := fun _ => none,
    stateDictKeys := [],
    predictBatch := fun _ => none,
    cudaAvailable := false,
    mpsAvailable := false }

/-- Witness for C8: a missing input file yields only the error message. -/
theorem C8_invalid_input_no_processing_witness :
    mainRun bareEnv ["grace.py", "missing.nii.gz"] =
      [Event.printMsg "Error: Input file does not exist or is not a .nii.gz file."] :=
  C8_invalid_input_no_processing bareEnv ["grace.py", "missing.nii.gz"]
    (by decide) (by decide) (Or.inl (by decide))

/-- C9: over any successful run the progress percentages are exactly the
fixed milestone sequence — integers in `[0, 100]`, monotonically
non-decreasing, ending at 100 — and the computed result coincides with the
progress-free data path (`graceOutput`), so emitting progress never
affects control flow or results. -/
theorem C9_progress_stream (env : Env)
    (input_path output_dir model_path : String) (spatial_size : List ℕ)
    (num_classes : ℕ) (dp : Bool) (ng : ℕ) (amin amax : ℚ)
    (s : Nifti) (evs : List Event)
    (hrun : grace_predict_single_file env input_path output_dir model_path
      spatial_size num_classes dp ng amin amax = (Except.ok s, evs)) :
    percentsOf evs =
      [5, 10, 20, 25, 30, 35, 40, 45, 50, 75, 80, 85, 90, 95, 100] ∧
    List.Chain' (· ≤ ·) (percentsOf evs) ∧
    (∀ q ∈ percentsOf evs, q ≤ 100) ∧
    (percentsOf evs).getLast? = some 100 ∧
    (grace_predict_single_file env input_path output_dir model_path
      spatial_size num_classes dp ng amin amax).1
      = graceOutput env input_path spatial_size := by
  have hconst : percentsOf evs =
      [5, 10, 20, 25, 30, 35, 40, 45, 50, 75, 80, 85, 90, 95, 100] := by
    unfold grace_predict_single_file preprocess_input at hrun
    cases hload : env.loadVolume input_path with
    | none => rw [hload] at hrun; simp at hrun
    | some img =>
      rw [hload] at hrun
      simp only [] at hrun
      cases hinf : sliding_window_inference env (spatialNormalize img).shape
          spatial_size 4 (4 / 5) with
      | error e => rw [hinf] at hrun; simp at hrun
      | ok sh =>
        rw [hinf] at hrun
        simp only [Prod.mk.injEq] at hrun
        have hevs := hrun.2
        subst hevs
        simp only [load_model, save_predictions, send_progress,
          List.append_assoc, List.cons_append, List.nil_append,
          percentsOf_cons_mkdir, percentsOf_deviceEvent,
          percentsOf_cons_progress, percentsOf_cons_write, percentsOf_nil]
  refine ⟨hconst, ?_, ?_, ?_, graceOutput_eq env input_path output_dir
    model_path spatial_size num_classes dp ng amin amax⟩
  · rw [hconst]
    simp [List.chain'_cons]
  · rw [hconst]; decide
  · rw [hconst]; rfl

/-- Witness for C9 on the successful `okEnv` run. -/
theorem C9_progress_stream_witness :
    percentsOf (grace_predict_single_file okEnv "t.nii.gz" "outputs"
        "GRACE.pth" [64, 64, 64] 12 false 1 0 255).2 =
      [5, 10, 20, 25, 30, 35, 40, 45, 50, 75, 80, 85, 90, 95, 100] :=
  (C9_progress_stream okEnv "t.nii.gz" "outputs" "GRACE.pth" [64, 64, 64]
    12 false 1 0 255 (Nifti.mk [] [] 0)
    (grace_predict_single_file okEnv "t.nii.gz" "outputs" "GRACE.pth"
      [64, 64, 64] 12 false 1 0 255).2 rfl).1

/-- C10: two invocations of `grace_predict_single_file` that differ only in
the `dataparallel` and `num_gpu` arguments produce identical results and
identical event traces: the two parameters are accepted but (their use
being commented out in `load_model`) have no effect on behaviour. -/
theorem C10_dataparallel_inert (env : Env)
    (input_path output_dir model_path : String) (spatial_size : List ℕ)
    (num_classes : ℕ) (dp₁ dp₂ : Bool) (ng₁ ng₂ : ℕ) (amin amax : ℚ) :
    grace_predict_single_file env input_path output_dir model_path
      spatial_size num_classes dp₁ ng₁ amin amax =
    grace_predict_single_file env input_path output_dir model_path
      spatial_size num_classes dp₂ ng₂ amin amax := rfl

end Grace
